import Mathlib

/-!
Verification of the log-access and log-tailing subsystem of the ralph
mission-control server (`ralph-dashboard/server.py`).

The server reads newline-delimited structured logs. Each handler strips a
line, skips it if empty, and otherwise attempts to decode it with the JSON
codec, silently dropping lines that fail to parse. The record codec
(`json.loads`) is an external library, so the development is parameterised
over an arbitrary decoder `dec : String → Option R`; `String.trim` models
Python's `str.strip()`.

A log file as observed by one poll of the stream loop is its list of lines
(as returned by `readlines`, line terminators immaterial under stripping)
together with the byte size reported by `stat` — the two are carried
separately because the `stat` and the `read` are distinct observations in
the source.
-/

/-- ASCII whitespace as stripped by Python `str.strip()`. -/
def pySpace (c : Char) : Bool :=
  c == ' ' || c == '\t' || c == '\n' || c == '\r' || c == '\x0b' || c == '\x0c'

/-- Strip leading and trailing whitespace from a character list. -/
def stripChars (cs : List Char) : List Char :=
  ((cs.dropWhile pySpace).reverse.dropWhile pySpace).reverse

/-- Model of Python `line.strip()`. -/
def pyStrip (s : String) : String :=
  ⟨stripChars s.data⟩

/-- Helper of `pySplit`: split a character list at a separator, `acc` holding
the current field reversed. -/
def splitChars (sep : Char) : List Char → List Char → List String
  | [], acc => [⟨acc.reverse⟩]
  | c :: cs, acc =>
      if c = sep then ⟨acc.reverse⟩ :: splitChars sep cs []
      else splitChars sep cs (c :: acc)

/-- Model of Python `s.split(sep)` for a one-character separator. -/
def pySplit (s : String) (sep : Char) : List String :=
  splitChars sep s.data []

/-- Model of Python `s.endswith(suffix)`. -/
def strEndsWith (s suffixStr : String) : Bool :=
  suffixStr.data.isSuffixOf s.data

/-- Model of Python `s.startswith(p)`. -/
def strStartsWith (s p : String) : Bool :=
  p.data.isPrefixOf s.data

/-- Lexicographic code-point comparison of character lists: Python's `<=` on
strings, the order used by `sorted` on the globbed names. -/
def charListLe : List Char → List Char → Bool
  | [], _ => true
  | _ :: _, [] => false
  | a :: as, b :: bs =>
      if a.toNat = b.toNat then charListLe as bs
      else decide (a.toNat < b.toNat)

/-- Name order on strings. -/
def nameLe (a b : String) : Bool :=
  charListLe a.data b.data

/-- One observation of the current log file: the lines read from it and the
byte size reported by `stat().st_size`. -/
structure LogFile where
  lines : List String
  size : Nat
deriving DecidableEq, Repr

/-- The per-session tail state of `stream_log`: the `offset` variable (a line
index, a Python `int`, hence `Int`) and the `last_size` variable. -/
structure Cursor where
  offset : Int
  lastSize : Nat
deriving DecidableEq, Repr

/-- The decode loop shared by `serve_log` and `serve_specific_log` (and
called `read_all` in the design): strip each line, skip empty lines, decode
the rest, silently dropping lines the decoder rejects. A missing file
(`none`) yields an empty sequence. -/
def read_all {R : Type} (dec : String → Option R) (file : Option (List String)) : List R :=
  match file with
  | none => []
  | some lines =>
      lines.filterMap (fun line =>
        let l := pyStrip line
        if l = "" then none else dec l)

/-- The `for i, line in enumerate(lines)` loop of `stream_log`: `i` is the
running line index, `evs` the events written so far (pairs of the emitted
`index` field and the decoded record), `off` the mutable `offset` variable.
A line is considered only when `i >= offset`; a successful decode emits the
event `(i, record)` and sets `offset = i + 1`. -/
def pollLines {R : Type} (dec : String → Option R) :
    Nat → List String → List (Nat × R) → Int → List (Nat × R) × Int
  | _, [], evs, off => (evs, off)
  | i, line :: rest, evs, off =>
      if off ≤ (i : Int) then
        let l := pyStrip line
        if l = "" then pollLines dec (i + 1) rest evs off
        else
          match dec l with
          | some r => pollLines dec (i + 1) rest (evs ++ [(i, r)]) ((i : Int) + 1)
          | none => pollLines dec (i + 1) rest evs off
      else pollLines dec (i + 1) rest evs off

/-- One iteration of the `while True` body of `stream_log` (the Tail
Tracker's `poll`): if the file is absent nothing happens; if its size equals
`last_size` nothing happens; otherwise the whole file is re-read and the
line loop runs, after which `last_size` is set to the observed size. -/
def poll {R : Type} (dec : String → Option R) (file : Option LogFile) (c : Cursor) :
    List (Nat × R) × Cursor :=
  match file with
  | none => ([], c)
  | some f =>
      if f.size = c.lastSize then ([], c)
      else
        let p := pollLines dec 0 f.lines [] c.offset
        (p.1, ⟨p.2, f.size⟩)

/-- Model of Python `int(s)` on a string: surrounding whitespace is ignored,
an optional sign is followed by a nonempty run of decimal digits in which
single underscores may appear strictly between digits. Returns `none` when
`int` would raise `ValueError`. -/
def pyInt (s : String) : Option Int :=
  let t := stripChars s.data
  let (sign, rest) :=
    match t with
    | '-' :: r => ((-1 : Int), r)
    | '+' :: r => ((1 : Int), r)
    | r => ((1 : Int), r)
  if (splitChars '_' rest []).all (fun g => !g.data.isEmpty && g.data.all Char.isDigit) then
    some (sign * ((rest.filter (fun c => c ≠ '_')).foldl
      (fun a c => a * 10 + (c.toNat - 48)) 0 : Nat))
  else none

/-- `int(params.get("offset", [0])[0])` of `stream_log`: an absent `offset`
query parameter defaults to the Python integer `0` (conversion cannot fail);
a present parameter is the raw query string fed to `int`. -/
def parseOffsetParam (p : Option String) : Option Int :=
  match p with
  | none => some 0
  | some s => pyInt s

/-- Observable outcome of one `stream_log` session: whether the 200 response
headers were sent, whether an exception escaped the handler, the framed
events written, and the number of keepalive lines written. -/
structure SessionTrace (R : Type) where
  headersSent : Bool
  raised : Bool
  events : List (Nat × R)
  keepalives : Nat
deriving DecidableEq, Repr

/-- `stream_log` driven over a finite schedule `files` of file observations
(one per loop iteration). Headers go out first; then the offset parameter is
converted, an unconvertible value raising before the loop starts; otherwise
each iteration polls and then writes one keepalive. -/
def stream_log {R : Type} (dec : String → Option R) (offsetParam : Option String)
    (files : List (Option LogFile)) : SessionTrace R :=
  match parseOffsetParam offsetParam with
  | none => ⟨true, true, [], 0⟩
  | some off =>
      let run := files.foldl
        (fun (acc : List (Nat × R) × Cursor) file =>
          let p := poll dec file acc.2
          (acc.1 ++ p.1, p.2))
        ([], ⟨off, 0⟩)
      ⟨true, false, run.1, files.length⟩

/-- Headers sent by `serve_log` (`/api/log`). -/
def serve_log_headers : List (String × String) :=
  [("Content-Type", "application/json"),
   ("Access-Control-Allow-Origin", "*"),
   ("Cache-Control", "no-cache")]

/-- Headers sent by `stream_log` (`/api/log/stream`). -/
def stream_log_headers : List (String × String) :=
  [("Content-Type", "text/event-stream"),
   ("Access-Control-Allow-Origin", "*"),
   ("Cache-Control", "no-cache"),
   ("Connection", "keep-alive")]

/-- Headers sent by `list_logs` (`/api/logs`). -/
def list_logs_headers : List (String × String) :=
  [("Content-Type", "application/json"),
   ("Access-Control-Allow-Origin", "*")]

/-- Headers sent by `serve_specific_log` (`/api/log/<name>`) on success. -/
def serve_specific_log_headers : List (String × String) :=
  [("Content-Type", "application/json"),
   ("Access-Control-Allow-Origin", "*")]

/-- A directory entry as seen by `glob`/`stat`: file name, `st_size`,
`st_mtime`. -/
structure DirEntry where
  name : String
  size : Nat
  mtime : Nat
deriving DecidableEq, Repr

/-- One element of the JSON array produced by `list_logs`. -/
structure LogMeta where
  name : String
  size : Nat
  modified : Nat
deriving DecidableEq, Repr

/-- Whether a file name matches the glob pattern `ralph_*.jsonl`. -/
def logGlobMatch (n : String) : Bool :=
  strStartsWith n "ralph_" && strEndsWith n ".jsonl" && decide (12 ≤ n.data.length)

/-- `list_logs` (`/api/logs`): if the log directory is absent the list is
empty; otherwise the entries matching `ralph_*.jsonl` are sorted by name in
descending order (`sorted(..., reverse=True)`) and mapped to their
name/size/modified metadata. -/
def list_logs (dir : Option (List DirEntry)) : List LogMeta :=
  match dir with
  | none => []
  | some entries =>
      (List.insertionSort (fun a b : DirEntry => nameLe b.name a.name = true)
          (entries.filter (fun e => logGlobMatch e.name))).map
        (fun e => ⟨e.name, e.size, e.mtime⟩)

/-- Filesystem paths as segment lists. `LOG_DIR` is
`Path(__file__).parent.parent / "ralph-logs"`; the `"app"` segment stands
for the repository directory the server file lives under. -/
def LOG_DIR : List String := ["app", "ralph-logs"]

/-- POSIX resolution of a segment path as performed by the OS when the
server calls `exists()`/`open()`: `..` pops a segment, `.` and empty
segments vanish. -/
def normalizePath (segs : List String) : List String :=
  segs.foldl
    (fun acc s =>
      if s = ".." then acc.dropLast
      else if s = "." ∨ s = "" then acc
      else acc ++ [s]) []

/-- `parsed.path.split("/")[-1]` in `do_GET`: the final segment of the
request path is the name handed to `serve_specific_log`. -/
def lastSegment (p : String) : String :=
  (pySplit p '/').getLastD ""

/-- Response of `serve_specific_log`: a 404 `send_error`, or a 200 with the
decoded records. -/
inductive LogResponse (R : Type) where
  | notFound
  | ok (records : List R)
deriving DecidableEq, Repr

/-- `serve_specific_log(log_name)` over a filesystem `fs` mapping resolved
paths to file lines (`none` = no such file). `log_path = LOG_DIR / log_name`
is formed by plain joining with no containment check; `log_path.exists()` is
evaluated first (Python `or` still evaluates it when the suffix test would
already fail), so the resolved path is always stat'ed once, and opened a
second time on the success path. The second component is the list of
resolved paths the handler touched. -/
def serve_specific_log {R : Type} (dec : String → Option R)
    (fs : List String → Option (List String)) (logName : String) :
    LogResponse R × List (List String) :=
  let logPath := normalizePath (LOG_DIR ++ pySplit logName '/')
  if (fs logPath).isNone || !(strEndsWith logName ".jsonl") then
    (LogResponse.notFound, [logPath])
  else
    (LogResponse.ok (read_all dec (fs logPath)), [logPath, logPath])

/-- The three lines of the snapshot/stream scenario: a record line, an empty
line, a record line (`\x7b` and `\x7d` stand for the braces of the JSON
objects). -/
def scenarioLines : List String :=
  ["\x7b\"a\":1\x7d", "", "\x7b\"a\":2\x7d"]

/-- A concrete stand-in for `json.loads` on the inputs the scenarios use: it
decodes the two scenario record lines (to the tokens `1` and `2`) and
rejects everything else, exactly as the JSON codec does on those inputs. -/
def decEx (s : String) : Option Nat :=
  if s = "\x7b\"a\":1\x7d" then some 1
  else if s = "\x7b\"a\":2\x7d" then some 2
  else none

/-- A filesystem for the traversal scenario: the only file is
`secret.jsonl` in the parent of the log directory. -/
def fsOutside (p : List String) : Option (List String) :=
  if p = ["app", "secret.jsonl"] then some ["\x7b\"a\":1\x7d"] else none

/-! ### Helper lemmas about the stream line loop -/

theorem pollLines_acc {R : Type} (dec : String → Option R) :
    ∀ (ls : List String) (i : Nat) (evs : List (Nat × R)) (off : Int),
      pollLines dec i ls evs off =
        (evs ++ (pollLines dec i ls [] off).1, (pollLines dec i ls [] off).2)
  | [], i, evs, off => by simp [pollLines]
  | line :: rest, i, evs, off => by
      by_cases h : off ≤ (i : Int)
      · by_cases h2 : pyStrip line = ""
        · simp only [pollLines, if_pos h, h2, if_pos rfl]
          exact pollLines_acc dec rest (i + 1) evs off
        · cases hd : dec (pyStrip line) with
          | some r =>
              simp only [pollLines, if_pos h, if_neg h2, hd, List.nil_append]
              rw [pollLines_acc dec rest (i + 1) (evs ++ [(i, r)]) ((i : Int) + 1),
                pollLines_acc dec rest (i + 1) [(i, r)] ((i : Int) + 1)]
              simp
          | none =>
              simp only [pollLines, if_pos h, if_neg h2, hd]
              exact pollLines_acc dec rest (i + 1) evs off
      · simp only [pollLines, if_neg h]
        exact pollLines_acc dec rest (i + 1) evs off

theorem pollLines_mono {R : Type} (dec : String → Option R) :
    ∀ (ls : List String) (i : Nat) (evs : List (Nat × R)) (off : Int),
      off ≤ (pollLines dec i ls evs off).2
  | [], i, evs, off => by simp [pollLines]
  | line :: rest, i, evs, off => by
      by_cases h : off ≤ (i : Int)
      · by_cases h2 : pyStrip line = ""
        · simp only [pollLines, if_pos h, h2, if_pos rfl]
          exact pollLines_mono dec rest (i + 1) evs off
        · cases hd : dec (pyStrip line) with
          | some r =>
              simp only [pollLines, if_pos h, if_neg h2, hd]
              exact le_trans (by omega)
                (pollLines_mono dec rest (i + 1) (evs ++ [(i, r)]) ((i : Int) + 1))
          | none =>
              simp only [pollLines, if_pos h, if_neg h2, hd]
              exact pollLines_mono dec rest (i + 1) evs off
      · simp only [pollLines, if_neg h]
        exact pollLines_mono dec rest (i + 1) evs off

theorem pollLines_skip_all {R : Type} (dec : String → Option R) :
    ∀ (ls : List String) (i : Nat) (evs : List (Nat × R)) (off : Int),
      (i : Int) + ls.length ≤ off →
      pollLines dec i ls evs off = (evs, off)
  | [], i, evs, off, _ => by simp [pollLines]
  | line :: rest, i, evs, off, hle => by
      have hi : ¬ off ≤ (i : Int) := by
        simp only [List.length_cons] at hle
        push_cast at hle
        omega
      simp only [pollLines, if_neg hi]
      apply pollLines_skip_all dec rest (i + 1) evs off
      simp only [List.length_cons] at hle
      push_cast at hle ⊢
      omega

theorem pollLines_bad_last {R : Type} (dec : String → Option R) (bad : String)
    (hbad : pyStrip bad = "" ∨ dec (pyStrip bad) = none) :
    ∀ (ls : List String) (i : Nat) (evs : List (Nat × R)) (off : Int),
      off ≤ (i : Int) + ls.length →
      (pollLines dec i (ls ++ [bad]) evs off).2 ≤ (i : Int) + ls.length
  | [], i, evs, off, hle => by
      have h : off ≤ (i : Int) := by simpa using hle
      rcases hbad with h2 | h2
      · simp [pollLines, if_pos h, h2]
        omega
      · by_cases h3 : pyStrip bad = ""
        · simp [pollLines, if_pos h, h3]
          omega
        · simp [pollLines, if_pos h, if_neg h3, h2]
          omega
  | line :: rest, i, evs, off, hle => by
      simp only [List.length_cons] at hle ⊢
      by_cases h : off ≤ (i : Int)
      · by_cases h2 : pyStrip line = ""
        · simp only [List.cons_append, pollLines, if_pos h, h2, if_pos rfl, if_true,
            eq_self_iff_true, List.append_eq]
          have := pollLines_bad_last dec bad hbad rest (i + 1) evs off (by omega)
          simp only [List.append_eq] at this
          omega
        · cases hd : dec (pyStrip line) with
          | some r =>
              simp only [List.cons_append, pollLines, if_pos h, if_neg h2, hd, List.append_eq]
              have := pollLines_bad_last dec bad hbad rest (i + 1) (evs ++ [(i, r)])
                ((i : Int) + 1) (by omega)
              simp only [List.append_eq] at this
              omega
          | none =>
              simp only [List.cons_append, pollLines, if_pos h, if_neg h2, hd, List.append_eq]
              have := pollLines_bad_last dec bad hbad rest (i + 1) evs off (by omega)
              simp only [List.append_eq] at this
              omega
      · simp only [List.cons_append, pollLines, if_neg h, List.append_eq]
        have := pollLines_bad_last dec bad hbad rest (i + 1) evs off (by omega)
        simp only [List.append_eq] at this
        omega

theorem pollLines_retry_mem {R : Type} (dec : String → Option R) (line : String) (r : R)
    (hne : pyStrip line ≠ "") (hdec : dec (pyStrip line) = some r) :
    ∀ (pre post : List String) (i : Nat) (evs : List (Nat × R)) (off : Int),
      off ≤ (i : Int) + pre.length →
      (i + pre.length, r) ∈ (pollLines dec i (pre ++ line :: post) evs off).1
  | [], post, i, evs, off, hle => by
      have h : off ≤ (i : Int) := by simpa using hle
      simp only [List.nil_append, pollLines, if_pos h, if_neg hne, hdec, List.length_nil,
        Nat.add_zero]
      rw [pollLines_acc dec post (i + 1) (evs ++ [(i, r)]) ((i : Int) + 1)]
      simp
  | p :: pre', post, i, evs, off, hle => by
      have hidx : i + (p :: pre').length = (i + 1) + pre'.length := by
        simp only [List.length_cons]; omega
      rw [hidx]
      simp only [List.length_cons] at hle
      by_cases h : off ≤ (i : Int)
      · by_cases h2 : pyStrip p = ""
        · simp only [List.cons_append, pollLines, if_pos h, h2, if_pos rfl, if_true,
            eq_self_iff_true]
          exact pollLines_retry_mem dec line r hne hdec pre' post (i + 1) evs off (by omega)
        · cases hd : dec (pyStrip p) with
          | some r' =>
              simp only [List.cons_append, pollLines, if_pos h, if_neg h2, hd]
              exact pollLines_retry_mem dec line r hne hdec pre' post (i + 1) (evs ++ [(i, r')])
                ((i : Int) + 1) (by omega)
          | none =>
              simp only [List.cons_append, pollLines, if_pos h, if_neg h2, hd]
              exact pollLines_retry_mem dec line r hne hdec pre' post (i + 1) evs off (by omega)
      · simp only [List.cons_append, pollLines, if_neg h]
        exact pollLines_retry_mem dec line r hne hdec pre' post (i + 1) evs off (by omega)

theorem pollLines_last_event {R : Type} (dec : String → Option R) :
    ∀ (ls : List String) (i : Nat) (off : Int),
      pollLines dec i ls [] off = ([], off) ∨
      ∃ (tl : List (Nat × R)) (j : Nat) (r : R),
        (pollLines dec i ls [] off).1 = tl ++ [(j, r)] ∧
        (pollLines dec i ls [] off).2 = (j : Int) + 1
  | [], i, off => by left; simp [pollLines]
  | line :: rest, i, off => by
      by_cases h : off ≤ (i : Int)
      · by_cases h2 : pyStrip line = ""
        · simp only [pollLines, if_pos h, h2, if_pos rfl, if_true, eq_self_iff_true]
          exact pollLines_last_event dec rest (i + 1) off
        · cases hd : dec (pyStrip line) with
          | some r =>
              simp only [pollLines, if_pos h, if_neg h2, hd, List.nil_append]
              right
              rw [pollLines_acc dec rest (i + 1) [(i, r)] ((i : Int) + 1)]
              rcases pollLines_last_event dec rest (i + 1) ((i : Int) + 1) with heq |
                ⟨tl, j, r', h1, h2'⟩
              · exact ⟨[], i, r, by rw [heq]; simp, by rw [heq]⟩
              · exact ⟨(i, r) :: tl, j, r', by rw [h1]; simp, by rw [h2']⟩
          | none =>
              simp only [pollLines, if_pos h, if_neg h2, hd]
              exact pollLines_last_event dec rest (i + 1) off
      · simp only [pollLines, if_neg h]
        exact pollLines_last_event dec rest (i + 1) off

/-! ### The name order is total and transitive -/

theorem charListLe_total : ∀ x y : List Char, charListLe x y = true ∨ charListLe y x = true
  | [], _ => Or.inl rfl
  | _ :: _, [] => Or.inr rfl
  | a :: as, b :: bs => by
      by_cases h : a.toNat = b.toNat
      · rcases charListLe_total as bs with h1 | h1
        · left; simp [charListLe, h, h1]
        · right; simp [charListLe, h.symm, h1]
      · rcases Nat.lt_or_ge a.toNat b.toNat with h1 | h1
        · left; simp [charListLe, h, h1]
        · have h2 : b.toNat < a.toNat := lt_of_le_of_ne h1 (fun hh => h hh.symm)
          have hba : ¬ b.toNat = a.toNat := fun hh => h hh.symm
          right; simp only [charListLe, if_neg hba, decide_eq_true_eq]; omega

theorem charListLe_trans :
    ∀ x y z : List Char, charListLe x y = true → charListLe y z = true → charListLe x z = true
  | [], _, _, _, _ => rfl
  | a :: as, [], z, hxy, _ => by simp [charListLe] at hxy
  | a :: as, b :: bs, [], _, hyz => by simp [charListLe] at hyz
  | a :: as, b :: bs, c :: cs, hxy, hyz => by
      by_cases hab : a.toNat = b.toNat
      · by_cases hbc : b.toNat = c.toNat
        · have hac : a.toNat = c.toNat := hab.trans hbc
          simp only [charListLe, if_pos hab] at hxy
          simp only [charListLe, if_pos hbc] at hyz
          simp only [charListLe, if_pos hac]
          exact charListLe_trans as bs cs hxy hyz
        · simp only [charListLe, if_neg hbc, decide_eq_true_eq] at hyz
          have hac : ¬ a.toNat = c.toNat := by omega
          simp only [charListLe, if_neg hac, decide_eq_true_eq]
          omega
      · simp only [charListLe, if_neg hab, decide_eq_true_eq] at hxy
        by_cases hbc : b.toNat = c.toNat
        · have hac : ¬ a.toNat = c.toNat := by omega
          simp only [charListLe, if_neg hac, decide_eq_true_eq]
          omega
        · simp only [charListLe, if_neg hbc, decide_eq_true_eq] at hyz
          have hac : ¬ a.toNat = c.toNat := by omega
          simp only [charListLe, if_neg hac, decide_eq_true_eq]
          omega

instance : IsTotal DirEntry (fun a b => nameLe b.name a.name = true) :=
  ⟨fun a b => charListLe_total b.name.data a.name.data⟩

instance : IsTrans DirEntry (fun a b => nameLe b.name a.name = true) :=
  ⟨fun a b c hab hbc => charListLe_trans c.name.data b.name.data a.name.data hbc hab⟩


/-! ### Claim theorems -/

/-- C5 (amended): every endpoint's response carries the permissive
cross-origin header `Access-Control-Allow-Origin: *`, but only `/api/log`
and `/api/log/stream` also carry `Cache-Control: no-cache`; `/api/logs` and
`/api/log/<name>` send no caching header at all. -/
theorem api_headers_cors_cache :
    ("Access-Control-Allow-Origin", "*") ∈ serve_log_headers ∧
    ("Access-Control-Allow-Origin", "*") ∈ stream_log_headers ∧
    ("Access-Control-Allow-Origin", "*") ∈ list_logs_headers ∧
    ("Access-Control-Allow-Origin", "*") ∈ serve_specific_log_headers ∧
    ("Cache-Control", "no-cache") ∈ serve_log_headers ∧
    ("Cache-Control", "no-cache") ∈ stream_log_headers ∧
    list_logs_headers.all (fun h => h.1 ≠ "Cache-Control") = true ∧
    serve_specific_log_headers.all (fun h => h.1 ≠ "Cache-Control") = true := by
  decide

/-- C5 counterexample: the `/api/logs` response carries no `Cache-Control`
header (nor any header named `Cache-Control`), refuting the claim that every
endpoint's JSON response carries a no-caching header. -/
theorem list_logs_missing_cache_header :
    ("Cache-Control", "no-cache") ∉ list_logs_headers ∧
    list_logs_headers.any (fun h => h.1 = "Cache-Control") = false := by
  decide

/-- C6: with the file unchanged, a poll performed after another poll yields
no new records and leaves the cursor exactly as the first poll left it; and
a poll that leaves the cursor unchanged yields no records itself. -/
theorem poll_idempotent {R : Type} (dec : String → Option R) (file : Option LogFile)
    (c : Cursor) :
    (poll dec file (poll dec file c).2).1 = [] ∧
    (poll dec file (poll dec file c).2).2 = (poll dec file c).2 ∧
    ((poll dec file c).2 = c → (poll dec file c).1 = []) := by
  cases file with
  | none => simp [poll]
  | some f =>
      by_cases h : f.size = c.lastSize
      · simp [poll, h]
      · have h1 : poll dec (some f) c =
            ((pollLines dec 0 f.lines [] c.offset).1,
              ⟨(pollLines dec 0 f.lines [] c.offset).2, f.size⟩) := by
          simp [poll, h]
        refine ⟨?_, ?_, ?_⟩
        · rw [h1]; simp [poll]
        · rw [h1]; simp [poll]
        · intro hc
          exfalso
          rw [h1] at hc
          exact h (congrArg Cursor.lastSize hc)

/-- C6 witness: on a one-line file whose size matches the cursor's recorded
size, both polls return nothing and the cursor is unchanged. -/
theorem poll_idempotent_witness :
    (poll decEx (some ⟨["x"], 4⟩) (poll decEx (some ⟨["x"], 4⟩) ⟨0, 4⟩).2).1 = [] ∧
    (poll decEx (some ⟨["x"], 4⟩) ⟨0, 4⟩).1 = [] :=
  ⟨(poll_idempotent decEx (some ⟨["x"], 4⟩) ⟨0, 4⟩).1,
   (poll_idempotent decEx (some ⟨["x"], 4⟩) ⟨0, 4⟩).2.2 (by decide)⟩

/-- C7: a log of a well-formed line, then a line that is blank or fails to
decode, then a well-formed line decodes to exactly the two well-formed
records in order; the bad line is silently skipped. -/
theorem read_all_fault_tolerant {R : Type} (dec : String → Option R) (l1 lbad l3 : String)
    (r1 r3 : R) (h1e : pyStrip l1 ≠ "") (h1 : dec (pyStrip l1) = some r1)
    (h3e : pyStrip l3 ≠ "") (h3 : dec (pyStrip l3) = some r3)
    (hbad : pyStrip lbad = "" ∨ dec (pyStrip lbad) = none) :
    read_all dec (some [l1, lbad, l3]) = [r1, r3] := by
  rcases hbad with hb | hb
  · simp [read_all, h1e, h1, h3e, h3, hb]
  · by_cases hbe : pyStrip lbad = ""
    · simp [read_all, h1e, h1, h3e, h3, hbe]
    · simp [read_all, h1e, h1, h3e, h3, hbe, hb]

/-- C7 witness: a malformed line between the two scenario record lines is
skipped and the two records are returned in order. -/
theorem read_all_fault_tolerant_witness :
    read_all decEx (some ["\x7b\"a\":1\x7d", "garbage", "\x7b\"a\":2\x7d"]) = [1, 2] :=
  read_all_fault_tolerant decEx "\x7b\"a\":1\x7d" "garbage" "\x7b\"a\":2\x7d" 1 2
    (by decide) (by decide) (by decide) (by decide) (Or.inr (by decide))

/-- C3 (amended): when the observed size differs from the recorded size but
every line index is below the cursor offset (in particular when the file
shrank below the offset), the poll returns no records, leaves the offset
unchanged — it is not reset to the decoded-record count — and records the
newly observed size. -/
theorem poll_no_reset_on_shrink {R : Type} (dec : String → Option R) (f : LogFile) (c : Cursor)
    (hsz : f.size ≠ c.lastSize) (hlen : (f.lines.length : Int) ≤ c.offset) :
    poll dec (some f) c = ([], ⟨c.offset, f.size⟩) := by
  have h0 : pollLines dec 0 f.lines ([] : List (Nat × R)) c.offset = ([], c.offset) :=
    pollLines_skip_all dec f.lines 0 [] c.offset (by simpa using hlen)
  simp [poll, hsz, h0]

/-- C3 witness: a cursor at offset 5 over a shrunken one-line file yields no
records and keeps offset 5 while adopting the new size. -/
theorem poll_no_reset_on_shrink_witness :
    poll decEx (some ⟨["\x7b\"a\":1\x7d"], 8⟩) ⟨5, 10⟩ = ([], ⟨5, 8⟩) :=
  poll_no_reset_on_shrink decEx ⟨["\x7b\"a\":1\x7d"], 8⟩ ⟨5, 10⟩ (by decide) (by decide)

/-- C3 counterexample: after the shrink poll, the offset is still 5, not the
newly observed decoded-record count 1 the claim requires it to be reset to. -/
theorem poll_shrink_keeps_offset :
    (poll decEx (some ⟨["\x7b\"a\":1\x7d"], 8⟩) ⟨5, 10⟩).1 = [] ∧
    ((read_all decEx (some ["\x7b\"a\":1\x7d"])).length : Int) = 1 ∧
    (poll decEx (some ⟨["\x7b\"a\":1\x7d"], 8⟩) ⟨5, 10⟩).2.offset = 5 ∧
    (poll decEx (some ⟨["\x7b\"a\":1\x7d"], 8⟩) ⟨5, 10⟩).2.offset ≠
      ((read_all decEx (some ["\x7b\"a\":1\x7d"])).length : Int) := by
  decide

/-- C2 (amended): within a session the cursor offset never decreases from
one poll to the next; a poll that emits nothing leaves the offset unchanged,
and a poll that emits records leaves the offset at one past the line index
of the last emitted record — a line count, not the count of successfully
decoded records. -/
theorem poll_offset_monotone {R : Type} (dec : String → Option R) (file : Option LogFile)
    (c : Cursor) :
    c.offset ≤ (poll dec file c).2.offset ∧
    ((poll dec file c).1 = [] → (poll dec file c).2.offset = c.offset) ∧
    (∀ (j : Nat) (r : R), (poll dec file c).1.getLast? = some (j, r) →
      (poll dec file c).2.offset = (j : Int) + 1) := by
  cases file with
  | none => simp [poll]
  | some f =>
      by_cases h : f.size = c.lastSize
      · simp [poll, h]
      · have h1 : poll dec (some f) c =
            ((pollLines dec 0 f.lines [] c.offset).1,
              ⟨(pollLines dec 0 f.lines [] c.offset).2, f.size⟩) := by
          simp [poll, h]
        rw [h1]
        refine ⟨pollLines_mono dec f.lines 0 [] c.offset, ?_, ?_⟩
        · intro he
          rcases pollLines_last_event dec f.lines 0 c.offset with heq | ⟨tl, j, r, ha, hb⟩
          · rw [heq]
          · rw [ha] at he
            simp at he
        · intro j r hl
          rcases pollLines_last_event dec f.lines 0 c.offset with heq | ⟨tl, j', r', ha, hb⟩
          · rw [heq] at hl
            simp at hl
          · rw [ha, List.getLast?_concat] at hl
            have hj : j' = j := (Prod.mk.injEq .. ▸ Option.some.inj hl).1
            rw [hb, hj]

/-- C2 witness: polling the growing two-line log (blank line, then a record)
from offset 0 emits the record at line index 1 and moves the offset to 2,
one past that line index, which is at least the starting offset. -/
theorem poll_offset_monotone_witness :
    (0 : Int) ≤ (poll decEx (some ⟨["", "\x7b\"a\":1\x7d"], 9⟩) ⟨0, 0⟩).2.offset ∧
    (poll decEx (some ⟨["", "\x7b\"a\":1\x7d"], 9⟩) ⟨0, 0⟩).2.offset = 2 :=
  ⟨(poll_offset_monotone decEx (some ⟨["", "\x7b\"a\":1\x7d"], 9⟩) ⟨0, 0⟩).1,
   (poll_offset_monotone decEx (some ⟨["", "\x7b\"a\":1\x7d"], 9⟩) ⟨0, 0⟩).2.2 1 1 (by decide)⟩

/-- C2 counterexample: on a log that grew from nothing to a blank line
followed by one valid record, the poll leaves the offset at 2 while only one
record was successfully decoded, so the offset does not equal — and exceeds —
the number of valid records decoded so far. -/
theorem poll_offset_exceeds_record_count :
    (poll decEx (some ⟨["", "\x7b\"a\":1\x7d"], 9⟩) ⟨0, 0⟩).2.offset = 2 ∧
    ((read_all decEx (some ["", "\x7b\"a\":1\x7d"])).length : Int) = 1 ∧
    (poll decEx (some ⟨["", "\x7b\"a\":1\x7d"], 9⟩) ⟨0, 0⟩).2.offset ≠
      ((read_all decEx (some ["", "\x7b\"a\":1\x7d"])).length : Int) := by
  decide

/-- C1 (amended): for the current log with lines `{"a":1}`, an empty line,
and `{"a":2}`, `read_all` returns exactly the two records in order; a stream
session started at offset 0 emits exactly two framed events with payloads
equal to those records, but their index fields are 0 and 2 — the absolute
line index in the file, counting the blank line — not 0 and 1. -/
theorem scenario_snapshot_stream {R : Type} (dec : String → Option R) (r1 r2 : R)
    (h1 : dec "\x7b\"a\":1\x7d" = some r1) (h2 : dec "\x7b\"a\":2\x7d" = some r2) :
    read_all dec (some scenarioLines) = [r1, r2] ∧
    ∀ sz : Nat, sz ≠ 0 →
      poll dec (some ⟨scenarioLines, sz⟩) ⟨0, 0⟩ = ([(0, r1), (2, r2)], ⟨3, sz⟩) := by
  have e1 : pyStrip "\x7b\"a\":1\x7d" = "\x7b\"a\":1\x7d" := by decide
  have e2 : pyStrip "\x7b\"a\":2\x7d" = "\x7b\"a\":2\x7d" := by decide
  have e0 : pyStrip "" = "" := by decide
  have n1 : ("\x7b\"a\":1\x7d" : String) ≠ "" := by decide
  have n2 : ("\x7b\"a\":2\x7d" : String) ≠ "" := by decide
  constructor
  · simp [read_all, scenarioLines, e1, e2, e0, n1, n2, h1, h2]
  · intro sz hsz
    have hc : ¬ sz = (Cursor.mk 0 0).lastSize := by simpa using hsz
    simp [poll, scenarioLines, hc, pollLines, e1, e2, e0, n1, n2, h1, h2]

/-- C1 witness: with the concrete decoder, the snapshot is `[1, 2]` and the
stream events are `(0, 1)` and `(2, 2)`. -/
theorem scenario_snapshot_stream_witness :
    read_all decEx (some scenarioLines) = [1, 2] ∧
    poll decEx (some ⟨scenarioLines, 18⟩) ⟨0, 0⟩ = ([(0, 1), (2, 2)], ⟨3, 18⟩) :=
  ⟨(scenario_snapshot_stream decEx 1 2 (by decide) (by decide)).1,
   (scenario_snapshot_stream decEx 1 2 (by decide) (by decide)).2 18 (by decide)⟩

/-- C1 counterexample: the indices of the two emitted events are 0 and 2,
not the 0 and 1 the claim requires. -/
theorem scenario_stream_indices :
    (poll decEx (some ⟨scenarioLines, 18⟩) ⟨0, 0⟩).1.map Prod.fst = [0, 2] ∧
    (poll decEx (some ⟨scenarioLines, 18⟩) ⟨0, 0⟩).1.map Prod.fst ≠ [0, 1] := by
  decide

/-- C4 (amended): through the HTTP route the name is the last path segment,
so a traversal-shaped request path reaches the handler as a bare file name;
`serve_specific_log("notalog.txt")` fails with a 404 after touching only a
path inside the log directory (its suffix check rejects the name); but the
handler performs no containment validation of its own: called with
`../secret.jsonl` every path it touches lies outside the log directory. -/
theorem serve_specific_log_route_containment {R : Type} (dec : String → Option R)
    (fs : List String → Option (List String)) :
    lastSegment "/api/log/../secret.jsonl" = "secret.jsonl" ∧
    (serve_specific_log dec fs "notalog.txt").1 = LogResponse.notFound ∧
    (serve_specific_log dec fs "notalog.txt").2 = [["app", "ralph-logs", "notalog.txt"]] ∧
    List.isPrefixOf LOG_DIR ["app", "ralph-logs", "notalog.txt"] = true ∧
    (serve_specific_log dec fs "../secret.jsonl").2.all
      (fun p => !(List.isPrefixOf LOG_DIR p)) = true := by
  have hp : normalizePath (LOG_DIR ++ pySplit "notalog.txt" '/') =
      ["app", "ralph-logs", "notalog.txt"] := by decide
  have hs : strEndsWith "notalog.txt" ".jsonl" = false := by decide
  have hq : normalizePath (LOG_DIR ++ pySplit "../secret.jsonl" '/') =
      ["app", "secret.jsonl"] := by decide
  have hsj : strEndsWith "../secret.jsonl" ".jsonl" = true := by decide
  have hb : List.isPrefixOf LOG_DIR ["app", "secret.jsonl"] = false := by decide
  refine ⟨by decide, ?_, ?_, by decide, ?_⟩
  · simp [serve_specific_log, hp, hs]
  · simp [serve_specific_log, hp, hs]
  · simp only [serve_specific_log, hq, hsj, Bool.not_true, Bool.or_false]
    cases hn : (fs ["app", "secret.jsonl"]).isNone with
    | true => simp [hn, hb]
    | false => simp [hn, hb]

/-- C4 counterexample: called with the traversal name `../secret.jsonl` over
a filesystem holding a `secret.jsonl` in the parent of the log directory,
the handler serves that file with a 200 — not a not-found — and every
filesystem access it performs is to that path outside the log directory. -/
theorem serve_specific_log_traversal_served :
    (serve_specific_log decEx fsOutside "../secret.jsonl").1 = LogResponse.ok [1] ∧
    (serve_specific_log decEx fsOutside "../secret.jsonl").1 ≠ LogResponse.notFound ∧
    (serve_specific_log decEx fsOutside "../secret.jsonl").2 =
      [["app", "secret.jsonl"], ["app", "secret.jsonl"]] ∧
    List.isPrefixOf LOG_DIR ["app", "secret.jsonl"] = false := by
  decide

/-- C8: listing the archived logs of an absent directory yields the empty
list; for any directory contents the result is sorted by name in descending
order and is a permutation of the metadata of exactly the entries matching
`ralph_*.jsonl`; and the two-file scenario lists `ralph_2.jsonl` before
`ralph_1.jsonl` with each entry's name, size and modification time. -/
theorem list_logs_sorted_desc :
    list_logs none = [] ∧
    (∀ entries : List DirEntry,
      List.Sorted (fun a b : LogMeta => nameLe b.name a.name = true)
        (list_logs (some entries)) ∧
      (list_logs (some entries)).Perm
        ((entries.filter (fun e => logGlobMatch e.name)).map
          (fun e => ⟨e.name, e.size, e.mtime⟩))) ∧
    list_logs (some [⟨"ralph_1.jsonl", 5, 11⟩, ⟨"ralph_2.jsonl", 7, 12⟩,
        ⟨"other.txt", 3, 13⟩]) =
      [⟨"ralph_2.jsonl", 7, 12⟩, ⟨"ralph_1.jsonl", 5, 11⟩] := by
  refine ⟨rfl, ?_, by decide⟩
  intro entries
  constructor
  · have hs := List.sorted_insertionSort (fun a b : DirEntry => nameLe b.name a.name = true)
      (entries.filter (fun e => logGlobMatch e.name))
    simp only [list_logs]
    exact List.Pairwise.map _ (fun a b hab => hab) hs
  · simp only [list_logs]
    exact (List.perm_insertionSort (fun a b : DirEntry => nameLe b.name a.name = true)
      (entries.filter (fun e => logGlobMatch e.name))).map _

/-- C9: for a stream request whose offset parameter is present, the 200
headers are always sent; the handler raises if and only if the parameter
fails integer conversion, and when it raises the session delivers no events
and no keepalives. -/
theorem stream_log_bad_offset_raises {R : Type} (dec : String → Option R) (s : String)
    (files : List (Option LogFile)) :
    (stream_log dec (some s) files).headersSent = true ∧
    ((stream_log dec (some s) files).raised = true ↔ pyInt s = none) ∧
    (pyInt s = none →
      (stream_log dec (some s) files).events = [] ∧
      (stream_log dec (some s) files).keepalives = 0) := by
  cases hp : pyInt s with
  | none => simp [stream_log, parseOffsetParam, hp]
  | some v => simp [stream_log, parseOffsetParam, hp]

/-- C9 witness: the non-numeric offset parameter `abc` makes the session
raise after the headers, with no events and no keepalives. -/
theorem stream_log_bad_offset_raises_witness :
    (stream_log decEx (some "abc") [some ⟨scenarioLines, 18⟩]).raised = true ∧
    (stream_log decEx (some "abc") [some ⟨scenarioLines, 18⟩]).events = [] ∧
    (stream_log decEx (some "abc") [some ⟨scenarioLines, 18⟩]).keepalives = 0 :=
  ⟨(stream_log_bad_offset_raises decEx "abc" [some ⟨scenarioLines, 18⟩]).2.1.mpr (by decide),
   ((stream_log_bad_offset_raises decEx "abc" [some ⟨scenarioLines, 18⟩]).2.2 (by decide)).1,
   ((stream_log_bad_offset_raises decEx "abc" [some ⟨scenarioLines, 18⟩]).2.2 (by decide)).2⟩

/-- C10: the offset advances only past emitted lines: if the file's last
line is blank or undecodable and the offset was at or before that line's
index, it stays at or before it; and on a later poll that observes a changed
size, a line at or past the offset that now decodes is emitted — a trailing
partial write is retried, never permanently skipped. -/
theorem poll_trailing_retry {R : Type} (dec : String → Option R) :
    (∀ (f : LogFile) (c : Cursor) (ls : List String) (bad : String),
      f.lines = ls ++ [bad] →
      (pyStrip bad = "" ∨ dec (pyStrip bad) = none) →
      c.offset ≤ (ls.length : Int) →
      (poll dec (some f) c).2.offset ≤ (ls.length : Int)) ∧
    (∀ (f : LogFile) (c : Cursor) (pre post : List String) (line : String) (r : R),
      f.lines = pre ++ line :: post →
      f.size ≠ c.lastSize →
      c.offset ≤ (pre.length : Int) →
      pyStrip line ≠ "" →
      dec (pyStrip line) = some r →
      (pre.length, r) ∈ (poll dec (some f) c).1) := by
  constructor
  · intro f c ls bad hlines hbad hoff
    by_cases h : f.size = c.lastSize
    · simp only [poll, if_pos h]
      exact hoff
    · have h1 : (poll dec (some f) c).2.offset = (pollLines dec 0 f.lines [] c.offset).2 := by
        simp [poll, h]
      rw [h1, hlines]
      have := pollLines_bad_last dec bad hbad ls 0 [] c.offset (by simpa using hoff)
      simpa using this
  · intro f c pre post line r hlines hsz hoff hne hdec
    have h1 : (poll dec (some f) c).1 = (pollLines dec 0 f.lines [] c.offset).1 := by
      simp [poll, hsz]
    rw [h1, hlines]
    have := pollLines_retry_mem dec line r hne hdec pre post 0 [] c.offset (by simpa using hoff)
    simpa using this

/-- C10 witness: a trailing `garbage` line keeps the offset at or before its
index 1; after the file grows and that line has become the second record,
the event `(1, 2)` is emitted. -/
theorem poll_trailing_retry_witness :
    (poll decEx (some ⟨["\x7b\"a\":1\x7d", "garbage"], 5⟩) ⟨0, 0⟩).2.offset ≤ 1 ∧
    (1, 2) ∈ (poll decEx (some ⟨["\x7b\"a\":1\x7d", "\x7b\"a\":2\x7d"], 9⟩) ⟨1, 5⟩).1 := by
  constructor
  · have h := (poll_trailing_retry decEx).1 ⟨["\x7b\"a\":1\x7d", "garbage"], 5⟩ ⟨0, 0⟩
      ["\x7b\"a\":1\x7d"] "garbage" (by decide) (Or.inr (by decide)) (by decide)
    simpa using h
  · have h := (poll_trailing_retry decEx).2 ⟨["\x7b\"a\":1\x7d", "\x7b\"a\":2\x7d"], 9⟩ ⟨1, 5⟩
      ["\x7b\"a\":1\x7d"] [] "\x7b\"a\":2\x7d" 2 (by decide) (by decide) (by decide)
      (by decide) (by decide)
    simpa using h
